import Mathlib

/-!
Verification of the hysteresis oscillatory network
(`pyclustering/nnet/hysteresis/__init__.py`).

The Python class `hysteresis_network` is embedded shallowly: machine
floats become exact rationals (`ℚ`), the mutable object becomes a record
that is threaded through the functions, and the two external
collaborators (the connection-topology query inherited from the base
`network` class and the scipy `odeint` scalar integrator) are abstract
parameters, modelled from the specification's contracts.
-/

/-- The network record.  Fields mirror the instance attributes
`_states`, `_outputs`, `_outputs_buffer`, `_weight`, `_num_osc` of the
Python class.  `has_connection` is the topology query inherited from the
base class.  Modelled from the spec: the Topology Provider supplies the
oscillator count and the pairwise query `connectionExists(source, target)`,
stable for the duration of a run (the base class is outside the core
source). -/
@[ext]
structure hysteresis_network where
  num_osc : ℕ
  states : List ℚ
  outputs : List ℚ
  outputs_buffer : List ℚ
  weight : List (List ℚ)
  has_connection : ℕ → ℕ → Bool

namespace hysteresis_network

/-- Matrix lookup `self._weight[i][j]` (out-of-range reads default to 0;
the Python code never performs them). -/
def wget (net : hysteresis_network) (i j : ℕ) : ℚ :=
  (net.weight.getD i []).getD j 0

/-- The `outputs` property setter: `self._outputs = [val for val in values];
self._outputs_buffer = [val for val in values]` (lines 45-49). -/
def set_outputs (net : hysteresis_network) (values : List ℚ) : hysteresis_network :=
  { net with outputs := values, outputs_buffer := values }

/-- The `states` property setter (lines 56-59). -/
def set_states (net : hysteresis_network) (values : List ℚ) : hysteresis_network :=
  { net with states := values }

/-- The constructor `__init__` (lines 62-80): zero states, all outputs
and buffered outputs -1, weight matrix with `own_weight` on the diagonal
and `neigh_weight` everywhere else.  The topology query is supplied by
the base class and is abstract here. -/
def init (num_osc : ℕ) (own_weight neigh_weight : ℚ)
    (conn : ℕ → ℕ → Bool) : hysteresis_network :=
  { num_osc := num_osc
    states := List.replicate num_osc 0
    outputs := List.replicate num_osc (-1)
    outputs_buffer := List.replicate num_osc (-1)
    weight := (List.range num_osc).map
      (fun index => (List.replicate num_osc neigh_weight).set index own_weight)
    has_connection := conn }

/-- `neuron_states` (lines 83-107).  Input `xi` is `inputs[0]`, the
current scalar value handed over by the integrator; `index` is the extra
argument `argv`.  Returns the updated object (only `_outputs_buffer` can
change) together with the derivative value `x = -xi + impact`. -/
def neuron_states (net : hysteresis_network) (xi : ℚ) (index : ℕ) :
    hysteresis_network × ℚ :=
  let impact0 := net.wget index index * net.outputs.getD index 0
  let impact := (List.range net.num_osc).foldl
    (fun acc i =>
      if net.has_connection i index then acc + net.wget index i * net.outputs.getD i 0
      else acc) impact0
  let x := -xi + impact
  let buf1 := if xi > 1 then net.outputs_buffer.set index 1 else net.outputs_buffer
  let buf2 := if xi < -1 then buf1.set index (-1) else buf1
  ({ net with outputs_buffer := buf2 }, x)

end hysteresis_network

/-- One call of `scipy.integrate.odeint`, observed abstractly: the list
of scalar values at which it evaluated the supplied derivative function
(in call order), and the final value `result[len(result) - 1][0]` of the
returned trajectory.  Modelled from the spec: the Scalar Integrator is an
external capability `integrate(derivative_fn, initial_value, time_points)
-> sequence_of_values` that invokes the derivative once per integration
sub-step; only these two observations of a call matter to the network. -/
structure IntegratorRun where
  evalPoints : List ℚ
  finalValue : ℚ

/-- An abstract scalar integrator: from the (pure) derivative function
`f t x`, the initial value and the time grid it determines its run.
Modelled from the spec: `odeint` is a black box whose behaviour depends
only on these inputs. -/
def Integrator : Type :=
  (ℚ → ℚ → ℚ) → ℚ → List ℚ → IntegratorRun

namespace hysteresis_network

/-- The `odeint` call issued for one oscillator in `_calculate_states`
(line 188): the derivative function is `neuron_states` bound to `index`
(its numeric result; the hysteresis side effect is applied below), the
initial value is `self._states[index]`. -/
def oscRun (integ : Integrator) (net : hysteresis_network) (grid : List ℚ)
    (index : ℕ) : IntegratorRun :=
  integ (fun _t x => (net.neuron_states x index).2) (net.states.getD index 0) grid

/-- The effect of one `odeint` call on the network object: every
evaluation of the derivative runs the hysteresis side effect of
`neuron_states` on the live object; the trajectory's final value is
returned alongside. -/
def integrate_osc (integ : Integrator) (net : hysteresis_network) (grid : List ℚ)
    (index : ℕ) : hysteresis_network × ℚ :=
  let run := net.oscRun integ grid index
  (run.evalPoints.foldl (fun n xi => (n.neuron_states xi index).1) net, run.finalValue)

end hysteresis_network

/-- `numpy.arange(start, stop, step)` over exact rationals (for positive
`step`): the points `start + k * step` for `0 ≤ k < ⌈(stop - start) / step⌉`;
the stop value itself is excluded. -/
def arangeQ (start stop step : ℚ) : List ℚ :=
  (List.range (⌈(stop - start) / step⌉).toNat).map (fun (k : ℕ) => start + (k : ℚ) * step)

/-- The time grid `numpy.arange(t - step, t, int_step)` handed to
`odeint` in `_calculate_states` (line 188). -/
def integrationGrid (t step int_step : ℚ) : List ℚ :=
  arangeQ (t - step) t int_step

/-- The solver selector `solve_type` from the `pyclustering.nnet` base
module.  Modelled from the spec: a closed enumeration with one supported
standard fixed-step 4th-order method and two rejected alternatives, a
low-accuracy fast method and an adaptive high-order method. -/
inductive solve_type where
  | FAST : solve_type
  | RK4 : solve_type
  | RKF45 : solve_type
deriving DecidableEq

namespace hysteresis_network

/-- The body of the loop of `_calculate_states` (lines 187-189): each
processed `index` runs one `odeint` call on the live object (second
component of the accumulator) and stores the trajectory's final value in
`next_states[index]` (first component). -/
def integrate_loop (integ : Integrator) (grid : List ℚ)
    (acc : List ℚ × hysteresis_network) : List ℕ → List ℚ × hysteresis_network
  | [] => acc
  | index :: rest =>
      let p := acc.2.integrate_osc integ grid index
      integrate_loop integ grid (acc.1.set index p.2, p.1) rest

/-- The loop of `_calculate_states` (lines 185-189), with the
processing order of the oscillators made explicit; `next_states` starts
as `[0] * self._num_osc`. -/
def calculate_states_loop (integ : Integrator) (net : hysteresis_network)
    (grid : List ℚ) (order : List ℕ) : List ℚ × hysteresis_network :=
  integrate_loop integ grid (List.replicate net.num_osc 0, net) order

/-- `_calculate_states` (lines 176-192) with an explicit processing
order: run the loop, then publish `self._outputs = [val for val in
self._outputs_buffer]` (line 191), and return the new states (the caller
assigns them). -/
def calculate_states_order (integ : Integrator) (net : hysteresis_network)
    (t step int_step : ℚ) (order : List ℕ) : List ℚ × hysteresis_network :=
  let r := net.calculate_states_loop integ (integrationGrid t step int_step) order
  (r.1, { r.2 with outputs := r.2.outputs_buffer })

/-- `_calculate_states` (lines 176-192): the Python loop processes the
oscillators in increasing index order. -/
def calculate_states (integ : Integrator) (net : hysteresis_network)
    (t step int_step : ℚ) : List ℚ × hysteresis_network :=
  net.calculate_states_order integ t step int_step (List.range net.num_osc)

/-- One macro step as performed by the simulation loop (line 163):
`self._states = self._calculate_states(solution, t, step, int_step)`. -/
def update_states (integ : Integrator) (net : hysteresis_network)
    (t step int_step : ℚ) : hysteresis_network :=
  let p := net.calculate_states integ t step int_step
  { p.2 with states := p.1 }

/-- The simulation loop of `simulate_static` (lines 161-171): one macro
step per grid time `t`, recording `(t, self._states)` after each step.
Returns the final network and the recorded snapshots in order. -/
def simulate_steps (integ : Integrator) (step int_step : ℚ) :
    List ℚ → hysteresis_network → hysteresis_network × List (ℚ × List ℚ)
  | [], net => (net, [])
  | t :: ts, net =>
      let net' := net.update_states integ t step int_step
      let r := simulate_steps integ step int_step ts net'
      (r.1, (t, net'.states) :: r.2)

/-- What `simulate_static` hands back: with `collect_dynamic = True` the
whole ordered list of `(time, states)` snapshots, otherwise only the last
`(time, states)` pair (`none` when the loop body never ran). -/
def SimOutput : Type :=
  List (ℚ × List ℚ) ⊕ Option (ℚ × List ℚ)

/-- `simulate_static` (lines 131-173): reject `FAST` and `RKF45` before
any simulation work, otherwise compute `step = time / steps`,
`int_step = step / 10`, iterate over `numpy.arange(step, time + step,
step)` and return the collected dynamic together with the final network
(the mutated object). -/
def simulate_static (integ : Integrator) (net : hysteresis_network)
    (steps : ℕ) (time : ℚ) (solution : solve_type) (collect_dynamic : Bool) :
    Except String (SimOutput × hysteresis_network) :=
  match solution with
  | solve_type.FAST =>
      Except.error "Solver FAST is not support due to low accuracy that leads to huge error."
  | solve_type.RKF45 =>
      Except.error "Solver RKF45 is not support in python version."
  | solve_type.RK4 =>
      let step := time / (steps : ℚ)
      let int_step := step / 10
      let r := simulate_steps integ step int_step (arangeQ step (time + step) step) net
      if collect_dynamic then
        Except.ok (Sum.inl ((0, net.states) :: r.2), r.1)
      else
        Except.ok (Sum.inr r.2.getLast?, r.1)

/-- `simulate` (lines 110-121): delegates to `simulate_static`. -/
def simulate (integ : Integrator) (net : hysteresis_network)
    (steps : ℕ) (time : ℚ) (solution : solve_type) (collect_dynamic : Bool) :
    Except String (SimOutput × hysteresis_network) :=
  net.simulate_static integ steps time solution collect_dynamic

/-- `simulate_dynamic` (lines 124-128): always raises. -/
def simulate_dynamic (_net : hysteresis_network) :
    Except String (SimOutput × hysteresis_network) :=
  Except.error "Dynamic simulation is not supported due to lack of stop conditions for the model"

/-- The member scan of `allocate_sync_ensembles` (lines 209-213): does
the cluster hold a member `m` with `states[i] < states[m] + tolerance`
and `states[i] > states[m] - tolerance`?  (The Python loop breaks at the
first such member; which member matched does not affect the result.) -/
def cluster_matches (states : List ℚ) (tolerance : ℚ) (i : ℕ) : List ℕ → Bool
  | [] => false
  | m :: rest =>
      if states.getD i 0 < states.getD m 0 + tolerance ∧
          states.getD i 0 > states.getD m 0 - tolerance then true
      else cluster_matches states tolerance i rest

/-- The cluster scan of `allocate_sync_ensembles` (lines 208-216): find
the first existing cluster matching oscillator `i`, append `i` to it and
stop; `none` when no cluster matches. -/
def tryInsert (states : List ℚ) (tolerance : ℚ) (i : ℕ) :
    List (List ℕ) → Option (List (List ℕ))
  | [] => none
  | c :: rest =>
      if cluster_matches states tolerance i c then
        some ((c ++ [i]) :: rest)
      else
        (tryInsert states tolerance i rest).map (fun r => c :: r)

/-- `allocate_sync_ensembles` (lines 195-221): start from `[[0]]`; for
each `i` in `range(1, num_osc)` append `i` to the first matching cluster
(first-fit) or open the new singleton cluster `[i]`. -/
def allocate_sync_ensembles (net : hysteresis_network) (tolerance : ℚ) :
    List (List ℕ) :=
  (List.range' 1 (net.num_osc - 1)).foldl
    (fun clusters i =>
      match tryInsert net.states tolerance i clusters with
      | some cs => cs
      | none => clusters ++ [[i]])
    [[0]]

/-- The effect of one `neuron_states` call on the buffered output of the
oscillator it was called for: latch +1 above the upper threshold, -1
below the lower one, otherwise keep the previous value. -/
def hystStep (v xi : ℚ) : ℚ :=
  if xi > 1 then 1 else if xi < -1 then -1 else v

/-- Cumulative hysteresis effect of a sequence of derivative
evaluations on one buffered output. -/
def slotUpdate (v : ℚ) (pts : List ℚ) : ℚ :=
  pts.foldl hystStep v

/-- The fields of the network that `neuron_states` and the integration
loop never touch (everything except the buffered outputs). -/
def sameCore (a b : hysteresis_network) : Prop :=
  a.num_osc = b.num_osc ∧ a.states = b.states ∧ a.outputs = b.outputs ∧
    a.weight = b.weight ∧ a.has_connection = b.has_connection

/-- The restriction of §3 of the spec: every entry of the list is -1 or
+1. -/
def pm_one (l : List ℚ) : Prop :=
  ∀ v ∈ l, v = -1 ∨ v = 1

end hysteresis_network

/-- The `conn_type.ALL_TO_ALL` topology.  Modelled from the spec: the
fully-connected selector of the Topology Provider (every pair of
distinct oscillators is connected, no self-connection). -/
def all_to_all : ℕ → ℕ → Bool :=
  fun i j => decide (i ≠ j)

/-- A tiny concrete integrator used to exercise the theorems: it
evaluates the derivative once, at the initial value, and performs one
explicit Euler step over the whole grid span. -/
def eulerOnce : Integrator :=
  fun f x0 ts => { evalPoints := [x0], finalValue := x0 + (ts.headD 0) * f (ts.headD 0) x0 }

/-- A two-oscillator demonstration network. -/
def demo2 : hysteresis_network :=
  hysteresis_network.init 2 (-4) (-1) all_to_all

/-- The five-oscillator network of the first allocator example. -/
def demo5a : hysteresis_network :=
  (hysteresis_network.init 5 (-4) (-1) all_to_all).set_states [1, 0.5, 0, -0.5, -1]

/-- The five-oscillator network of the second allocator example. -/
def demo5b : hysteresis_network :=
  (hysteresis_network.init 5 (-4) (-1) all_to_all).set_states [1, 1.05, 1.02, 5, 5.01]

/-! ### Helper lemmas -/

theorem getElem?_set_map {α : Type _} (l : List α) (i j : ℕ) (a : α) :
    (l.set i a)[j]? = if i = j then (fun _ => a) <$> l[j]? else l[j]? := by
  rw [List.getElem?_set]
  by_cases h : i = j
  · subst h
    by_cases hl : i < l.length
    · simp [hl, List.getElem?_eq_getElem hl]
    · simp [hl, List.getElem?_eq_none (le_of_not_lt hl)]
  · simp [h]

namespace hysteresis_network

theorem slotUpdate_nil (v : ℚ) : slotUpdate v [] = v := rfl

theorem slotUpdate_cons (v xi : ℚ) (pts : List ℚ) :
    slotUpdate v (xi :: pts) = slotUpdate (hystStep v xi) pts := rfl

theorem slotUpdate_of_dead_band {pts : List ℚ} (h : ∀ x ∈ pts, -1 < x ∧ x < 1)
    (v : ℚ) : slotUpdate v pts = v := by
  induction pts with
  | nil => rfl
  | cons xi pts ih =>
      have hx := h xi (List.mem_cons_self xi pts)
      rw [slotUpdate_cons]
      have h1 : ¬ xi > 1 := by linarith [hx.2]
      have h2 : ¬ xi < -1 := by linarith [hx.1]
      rw [show hystStep v xi = v by rw [hystStep, if_neg h1, if_neg h2]]
      exact ih (fun x hx' => h x (List.mem_cons_of_mem _ hx'))

theorem slotUpdate_mem (v : ℚ) (pts : List ℚ) :
    slotUpdate v pts = v ∨ slotUpdate v pts = 1 ∨ slotUpdate v pts = -1 := by
  induction pts generalizing v with
  | nil => exact Or.inl rfl
  | cons xi pts ih =>
      rw [slotUpdate_cons]
      rcases ih (hystStep v xi) with h | h
      · rw [h, hystStep]
        by_cases h1 : xi > 1
        · rw [if_pos h1]; exact Or.inr (Or.inl rfl)
        · rw [if_neg h1]
          by_cases h2 : xi < -1
          · rw [if_pos h2]; exact Or.inr (Or.inr rfl)
          · rw [if_neg h2]; exact Or.inl rfl
      · exact Or.inr h

theorem sameCore_refl (a : hysteresis_network) : sameCore a a :=
  ⟨rfl, rfl, rfl, rfl, rfl⟩

theorem sameCore_trans {a b c : hysteresis_network}
    (h1 : sameCore a b) (h2 : sameCore b c) : sameCore a c :=
  ⟨h1.1.trans h2.1, h1.2.1.trans h2.2.1, h1.2.2.1.trans h2.2.2.1,
    h1.2.2.2.1.trans h2.2.2.2.1, h1.2.2.2.2.trans h2.2.2.2.2⟩

theorem neuron_states_fst_sameCore (net : hysteresis_network) (xi : ℚ) (index : ℕ) :
    sameCore (net.neuron_states xi index).1 net :=
  ⟨rfl, rfl, rfl, rfl, rfl⟩

theorem neuron_states_snd_congr {a b : hysteresis_network} (h : sameCore a b)
    (xi : ℚ) (index : ℕ) :
    (a.neuron_states xi index).2 = (b.neuron_states xi index).2 := by
  obtain ⟨h1, _h2, h3, h4, h5⟩ := h
  simp only [neuron_states, wget, h1, h3, h4, h5]

theorem neuron_states_buffer_getElem? (net : hysteresis_network) (xi : ℚ)
    (index j : ℕ) :
    ((net.neuron_states xi index).1).outputs_buffer[j]? =
      if index = j then (fun v => hystStep v xi) <$> net.outputs_buffer[j]?
      else net.outputs_buffer[j]? := by
  simp only [neuron_states]
  by_cases h1 : xi > 1
  · have h2 : ¬ xi < -1 := by linarith
    simp only [if_pos h1, if_neg h2, getElem?_set_map]
    by_cases h : index = j
    · rw [if_pos h, if_pos h]
      cases net.outputs_buffer[j]? with
      | none => rfl
      | some v => simp [hystStep, if_pos h1]
    · rw [if_neg h, if_neg h]
  · by_cases h2 : xi < -1
    · simp only [if_neg h1, if_pos h2, getElem?_set_map]
      by_cases h : index = j
      · rw [if_pos h, if_pos h]
        cases net.outputs_buffer[j]? with
        | none => rfl
        | some v => simp [hystStep, if_neg h1, if_pos h2]
      · rw [if_neg h, if_neg h]
    · simp only [if_neg h1, if_neg h2]
      by_cases h : index = j
      · rw [if_pos h]
        cases net.outputs_buffer[j]? with
        | none => rfl
        | some v => simp [hystStep, if_neg h1, if_neg h2]
      · rw [if_neg h]

theorem bufFold_sameCore (index : ℕ) (pts : List ℚ) :
    ∀ n : hysteresis_network,
      sameCore (pts.foldl (fun m xi => (m.neuron_states xi index).1) n) n := by
  induction pts with
  | nil => exact fun n => sameCore_refl n
  | cons xi pts ih =>
      intro n
      rw [List.foldl_cons]
      exact sameCore_trans (ih _) (neuron_states_fst_sameCore n xi index)

theorem bufFold_buffer_getElem? (index : ℕ) (pts : List ℚ) :
    ∀ (n : hysteresis_network) (j : ℕ),
      (pts.foldl (fun m xi => (m.neuron_states xi index).1) n).outputs_buffer[j]? =
        if index = j then (fun v => slotUpdate v pts) <$> n.outputs_buffer[j]?
        else n.outputs_buffer[j]? := by
  induction pts with
  | nil =>
      intro n j
      rw [List.foldl_nil]
      by_cases h : index = j
      · rw [if_pos h]
        cases n.outputs_buffer[j]? with
        | none => rfl
        | some v => rfl
      · rw [if_neg h]
  | cons xi pts ih =>
      intro n j
      rw [List.foldl_cons, ih, neuron_states_buffer_getElem?]
      by_cases h : index = j
      · rw [if_pos h, if_pos h, if_pos h]
        cases n.outputs_buffer[j]? with
        | none => rfl
        | some v => rw [Option.map_some, Option.map_some, Option.map_some,
            slotUpdate_cons]
      · rw [if_neg h, if_neg h, if_neg h]

theorem oscRun_congr {a b : hysteresis_network} (h : sameCore a b)
    (integ : Integrator) (grid : List ℚ) (index : ℕ) :
    a.oscRun integ grid index = b.oscRun integ grid index := by
  unfold oscRun
  rw [h.2.1]
  congr 1
  funext t x
  exact neuron_states_snd_congr h x index

theorem integrate_osc_fst_sameCore (integ : Integrator) (net : hysteresis_network)
    (grid : List ℚ) (index : ℕ) :
    sameCore (net.integrate_osc integ grid index).1 net :=
  bufFold_sameCore index _ net

theorem integrate_osc_fst_buffer (integ : Integrator) (net : hysteresis_network)
    (grid : List ℚ) (index j : ℕ) :
    (net.integrate_osc integ grid index).1.outputs_buffer[j]? =
      if index = j then
        (fun v => slotUpdate v (net.oscRun integ grid index).evalPoints) <$>
          net.outputs_buffer[j]?
      else net.outputs_buffer[j]? :=
  bufFold_buffer_getElem? index _ net j

theorem integrate_osc_snd (integ : Integrator) (net : hysteresis_network)
    (grid : List ℚ) (index : ℕ) :
    (net.integrate_osc integ grid index).2 = (net.oscRun integ grid index).finalValue :=
  rfl

/-- Characterization of the `_calculate_states` loop: each processed
oscillator `index` stores the final value of its own `odeint` run in
`next_states[index]` and applies its own hysteresis updates to
`outputs_buffer[index]`, and both the run and the updates are determined
by the pre-step network alone.  The loop never touches the other fields. -/
theorem integrate_loop_char (integ : Integrator) (net : hysteresis_network)
    (grid : List ℚ) :
    ∀ (L : List ℕ) (ns0 : List ℚ) (n0 : hysteresis_network),
      sameCore n0 net → L.Nodup →
      sameCore (integrate_loop integ grid (ns0, n0) L).2 net ∧
      (∀ j, ((integrate_loop integ grid (ns0, n0) L).2).outputs_buffer[j]? =
        if j ∈ L then
          (fun v => slotUpdate v (net.oscRun integ grid j).evalPoints) <$>
            n0.outputs_buffer[j]?
        else n0.outputs_buffer[j]?) ∧
      (∀ j, ((integrate_loop integ grid (ns0, n0) L).1)[j]? =
        if j ∈ L then
          (fun _ => (net.oscRun integ grid j).finalValue) <$> ns0[j]?
        else ns0[j]?) := by
  intro L
  induction L with
  | nil =>
      intro ns0 n0 hcore _
      refine ⟨hcore, fun j => ?_, fun j => ?_⟩
      · rw [integrate_loop, if_neg (List.not_mem_nil j)]
      · rw [integrate_loop, if_neg (List.not_mem_nil j)]
  | cons a rest ih =>
      intro ns0 n0 hcore hnd
      have ha : a ∉ rest := (List.nodup_cons.mp hnd).1
      have hrest : rest.Nodup := (List.nodup_cons.mp hnd).2
      have hrun : n0.oscRun integ grid a = net.oscRun integ grid a :=
        oscRun_congr hcore integ grid a
      have hcore1 : sameCore (n0.integrate_osc integ grid a).1 net :=
        sameCore_trans (integrate_osc_fst_sameCore integ n0 grid a) hcore
      have hstep : integrate_loop integ grid (ns0, n0) (a :: rest) =
          integrate_loop integ grid
            (ns0.set a (n0.integrate_osc integ grid a).2,
             (n0.integrate_osc integ grid a).1) rest := rfl
      obtain ⟨ihcore, ihbuf, ihns⟩ :=
        ih (ns0.set a (n0.integrate_osc integ grid a).2)
          (n0.integrate_osc integ grid a).1 hcore1 hrest
      refine ⟨by rw [hstep]; exact ihcore, fun j => ?_, fun j => ?_⟩
      · rw [hstep, ihbuf j, integrate_osc_fst_buffer]
        by_cases hj : j ∈ rest
        · have hja : ¬ a = j := fun h => ha (h ▸ hj)
          rw [if_pos hj, if_neg hja, if_pos (List.mem_cons_of_mem a hj)]
        · rw [if_neg hj]
          by_cases hja : a = j
          · subst hja
            rw [if_pos rfl, if_pos (List.mem_cons_self a rest), hrun]
          · have : j ∉ a :: rest := by
              rw [List.mem_cons]
              rintro (h | h)
              · exact hja h.symm
              · exact hj h
            rw [if_neg hja, if_neg this]
      · rw [hstep, ihns j, getElem?_set_map]
        by_cases hj : j ∈ rest
        · have hja : ¬ a = j := fun h => ha (h ▸ hj)
          rw [if_pos hj, if_neg hja, if_pos (List.mem_cons_of_mem a hj)]
        · rw [if_neg hj]
          by_cases hja : a = j
          · subst hja
            rw [if_pos rfl, if_pos (List.mem_cons_self a rest),
              integrate_osc_snd, hrun]
          · have : j ∉ a :: rest := by
              rw [List.mem_cons]
              rintro (h | h)
              · exact hja h.symm
              · exact hj h
            rw [if_neg hja, if_neg this]

/-- Processing the oscillators in any duplicate-free order with the same
elements yields the same loop result. -/
theorem calculate_states_loop_perm (integ : Integrator) (net : hysteresis_network)
    (grid : List ℚ) {order order' : List ℕ} (hperm : order.Perm order')
    (hnd : order.Nodup) :
    net.calculate_states_loop integ grid order =
      net.calculate_states_loop integ grid order' := by
  have hnd' : order'.Nodup := hperm.nodup hnd
  obtain ⟨hc1, hb1, hn1⟩ := integrate_loop_char integ net grid order
    (List.replicate net.num_osc 0) net (sameCore_refl net) hnd
  obtain ⟨hc2, hb2, hn2⟩ := integrate_loop_char integ net grid order'
    (List.replicate net.num_osc 0) net (sameCore_refl net) hnd'
  unfold calculate_states_loop
  refine Prod.ext (List.ext_getElem? fun j => ?_) ?_
  · rw [hn1 j, hn2 j]
    by_cases hj : j ∈ order
    · rw [if_pos hj, if_pos (hperm.mem_iff.mp hj)]
    · rw [if_neg hj, if_neg (fun h => hj (hperm.mem_iff.mpr h))]
  · have hbuf : (integrate_loop integ grid (List.replicate net.num_osc 0, net) order).2.outputs_buffer =
        (integrate_loop integ grid (List.replicate net.num_osc 0, net) order').2.outputs_buffer := by
      refine List.ext_getElem? fun j => ?_
      rw [hb1 j, hb2 j]
      by_cases hj : j ∈ order
      · rw [if_pos hj, if_pos (hperm.mem_iff.mp hj)]
      · rw [if_neg hj, if_neg (fun h => hj (hperm.mem_iff.mpr h))]
    exact hysteresis_network.ext (hc1.1.trans hc2.1.symm) (hc1.2.1.trans hc2.2.1.symm)
      (hc1.2.2.1.trans hc2.2.2.1.symm) hbuf (hc1.2.2.2.1.trans hc2.2.2.2.1.symm)
      (hc1.2.2.2.2.trans hc2.2.2.2.2.symm)

theorem calculate_states_order_perm (integ : Integrator) (net : hysteresis_network)
    (t step int_step : ℚ) {order : List ℕ}
    (h : order.Perm (List.range net.num_osc)) :
    net.calculate_states_order integ t step int_step order =
      net.calculate_states integ t step int_step := by
  have hnd : order.Nodup := h.symm.nodup (List.nodup_range _)
  unfold calculate_states calculate_states_order
  rw [calculate_states_loop_perm integ net (integrationGrid t step int_step) h hnd]

/-- The canonical-order loop, pointwise. -/
theorem calculate_states_char (integ : Integrator) (net : hysteresis_network)
    (t step int_step : ℚ) :
    sameCore (net.calculate_states_loop integ (integrationGrid t step int_step)
      (List.range net.num_osc)).2 net ∧
    (∀ j, ((net.calculate_states_loop integ (integrationGrid t step int_step)
        (List.range net.num_osc)).2).outputs_buffer[j]? =
      if j < net.num_osc then
        (fun v => slotUpdate v
          ((net.oscRun integ (integrationGrid t step int_step) j).evalPoints)) <$>
          net.outputs_buffer[j]?
      else net.outputs_buffer[j]?) ∧
    (∀ j, ((net.calculate_states_loop integ (integrationGrid t step int_step)
        (List.range net.num_osc)).1)[j]? =
      if j < net.num_osc then
        some ((net.oscRun integ (integrationGrid t step int_step) j).finalValue)
      else none) := by
  obtain ⟨hc, hb, hn⟩ := integrate_loop_char integ net
    (integrationGrid t step int_step) (List.range net.num_osc)
    (List.replicate net.num_osc 0) net (sameCore_refl net) (List.nodup_range _)
  unfold calculate_states_loop
  refine ⟨hc, fun j => ?_, fun j => ?_⟩
  · rw [hb j]
    by_cases hj : j < net.num_osc
    · rw [if_pos (List.mem_range.mpr hj), if_pos hj]
    · rw [if_neg (fun h => hj (List.mem_range.mp h)), if_neg hj]
  · rw [hn j, List.getElem?_replicate]
    by_cases hj : j < net.num_osc
    · rw [if_pos (List.mem_range.mpr hj), if_pos hj, if_pos hj, Option.map_some]
    · rw [if_neg (fun h => hj (List.mem_range.mp h)), if_neg hj, if_neg hj]

/-- After one macro step the outputs and the buffered outputs agree, and
the slot of oscillator `j` holds the cumulative hysteresis update of its
own integrator run applied to the pre-step buffered value. -/
theorem update_states_outputs_getElem? (integ : Integrator)
    (net : hysteresis_network) (t step int_step : ℚ) (j : ℕ) :
    (net.update_states integ t step int_step).outputs[j]? =
      (if j < net.num_osc then
        (fun v => slotUpdate v
          ((net.oscRun integ (integrationGrid t step int_step) j).evalPoints)) <$>
          net.outputs_buffer[j]?
      else net.outputs_buffer[j]?) ∧
    (net.update_states integ t step int_step).outputs_buffer =
      (net.update_states integ t step int_step).outputs := by
  obtain ⟨_hc, hb, _hn⟩ := calculate_states_char integ net t step int_step
  exact ⟨hb j, rfl⟩

/-- After one macro step, the state of oscillator `j < num_osc` is the
final value of its integrator run. -/
theorem update_states_states_getElem? (integ : Integrator)
    (net : hysteresis_network) (t step int_step : ℚ) (j : ℕ) :
    (net.update_states integ t step int_step).states[j]? =
      if j < net.num_osc then
        some ((net.oscRun integ (integrationGrid t step int_step) j).finalValue)
      else none := by
  obtain ⟨_hc, _hb, hn⟩ := calculate_states_char integ net t step int_step
  exact hn j

theorem pm_one_update_states {net : hysteresis_network}
    (hbuf : pm_one net.outputs_buffer) (integ : Integrator) (t step int_step : ℚ) :
    pm_one (net.update_states integ t step int_step).outputs ∧
      pm_one (net.update_states integ t step int_step).outputs_buffer := by
  have houts : pm_one (net.update_states integ t step int_step).outputs := by
    intro v hv
    obtain ⟨j, hj⟩ := List.mem_iff_getElem?.mp hv
    have := (update_states_outputs_getElem? integ net t step int_step j).1
    rw [hj] at this
    by_cases hlt : j < net.num_osc
    · rw [if_pos hlt] at this
      cases hbuf' : net.outputs_buffer[j]? with
      | none => rw [hbuf', Option.map_none] at this; exact absurd this (by simp)
      | some v0 =>
          rw [hbuf', Option.map_some] at this
          have hv0 : v0 ∈ net.outputs_buffer := List.mem_iff_getElem?.mpr ⟨j, hbuf'⟩
          have heq : slotUpdate v0
              ((net.oscRun integ (integrationGrid t step int_step) j).evalPoints) = v :=
            Option.some.inj this.symm
          rcases slotUpdate_mem v0
              ((net.oscRun integ (integrationGrid t step int_step) j).evalPoints) with
            h | h | h
          · rw [heq] at h
            exact h ▸ hbuf v0 hv0
          · rw [heq] at h
            exact Or.inr h
          · rw [heq] at h
            exact Or.inl h
    · rw [if_neg hlt] at this
      exact hbuf v (List.mem_iff_getElem?.mpr ⟨j, this.symm⟩)
  refine ⟨houts, ?_⟩
  rw [(update_states_outputs_getElem? integ net t step int_step 0).2]
  exact houts

/-- Outputs and buffered outputs stay in {-1, +1} along a whole
simulation loop. -/
theorem pm_one_simulate_steps (integ : Integrator) (step int_step : ℚ) :
    ∀ (ts : List ℚ) (net : hysteresis_network),
      pm_one net.outputs → pm_one net.outputs_buffer →
      pm_one (simulate_steps integ step int_step ts net).1.outputs ∧
        pm_one (simulate_steps integ step int_step ts net).1.outputs_buffer := by
  intro ts
  induction ts with
  | nil => exact fun net ho hb => ⟨ho, hb⟩
  | cons t ts ih =>
      intro net ho hb
      obtain ⟨ho', hb'⟩ := pm_one_update_states hb integ t step int_step
      exact ih (net.update_states integ t step int_step) ho' hb'

theorem simulate_steps_snd_length (integ : Integrator) (step int_step : ℚ) :
    ∀ (ts : List ℚ) (net : hysteresis_network),
      (simulate_steps integ step int_step ts net).2.length = ts.length := by
  intro ts
  induction ts with
  | nil => exact fun _ => rfl
  | cons t ts ih =>
      intro net
      rw [simulate_steps, List.length_cons, ih, List.length_cons]

end hysteresis_network

/-! ### Allocator lemmas -/

namespace hysteresis_network

theorem tryInsert_flatten {states : List ℚ} {tol : ℚ} {i : ℕ} :
    ∀ {clusters cs : List (List ℕ)},
      tryInsert states tol i clusters = some cs →
      cs.flatten.Perm (clusters.flatten ++ [i]) := by
  intro clusters
  induction clusters with
  | nil => intro cs h; exact absurd h (by rw [tryInsert]; exact Option.noConfusion)
  | cons c rest ih =>
      intro cs h
      rw [tryInsert] at h
      by_cases hm : cluster_matches states tol i c
      · rw [if_pos hm] at h
        obtain rfl : ((c ++ [i]) :: rest) = cs := Option.some.inj h
        rw [List.flatten_cons, List.flatten_cons, List.append_assoc, List.append_assoc]
        exact List.Perm.append_left c List.perm_append_comm
      · rw [if_neg hm] at h
        obtain ⟨r, hr, rfl⟩ := Option.map_eq_some'.mp h
        rw [List.flatten_cons, List.flatten_cons, List.append_assoc]
        exact List.Perm.append_left c (ih hr)

/-- One iteration of the outer loop of `allocate_sync_ensembles` adds
exactly the index `i` to the multiset of allocated indexes. -/
theorem allocate_step_flatten (states : List ℚ) (tol : ℚ)
    (clusters : List (List ℕ)) (i : ℕ) :
    (match tryInsert states tol i clusters with
      | some cs => cs
      | none => clusters ++ [[i]]).flatten.Perm (clusters.flatten ++ [i]) := by
  cases h : tryInsert states tol i clusters with
  | some cs => exact tryInsert_flatten h
  | none =>
      rw [List.flatten_append, List.flatten_cons, List.flatten_nil, List.append_nil]

theorem allocate_foldl_flatten (states : List ℚ) (tol : ℚ) :
    ∀ (L : List ℕ) (clusters : List (List ℕ)),
      ((L.foldl (fun cl i =>
        match tryInsert states tol i cl with
        | some cs => cs
        | none => cl ++ [[i]]) clusters).flatten).Perm (clusters.flatten ++ L) := by
  intro L
  induction L with
  | nil => intro clusters; rw [List.foldl_nil, List.append_nil]
  | cons a L ih =>
      intro clusters
      rw [List.foldl_cons]
      refine ((ih _).trans ?_)
      refine (List.Perm.append_right L (allocate_step_flatten states tol clusters a)).trans ?_
      rw [List.append_assoc, List.singleton_append]

/-- The multiset of indexes allocated by `allocate_sync_ensembles` is
exactly `{0, …, num_osc - 1}` (for a nonempty network). -/
theorem allocate_sync_ensembles_flatten_perm (net : hysteresis_network)
    (tolerance : ℚ) (h : 0 < net.num_osc) :
    (net.allocate_sync_ensembles tolerance).flatten.Perm
      (List.range net.num_osc) := by
  have := allocate_foldl_flatten net.states tolerance
    (List.range' 1 (net.num_osc - 1)) [[0]]
  rw [allocate_sync_ensembles]
  refine this.trans ?_
  rw [List.flatten_cons, List.flatten_nil, List.append_nil,
    List.singleton_append, List.range_eq_range']
  rw [show net.num_osc = (net.num_osc - 1) + 1 from (Nat.succ_pred_eq_of_pos h).symm,
    List.range'_succ]
  simp

theorem foldl_if_add (p : ℕ → Bool) (f : ℕ → ℚ) :
    ∀ (L : List ℕ) (init : ℚ),
      L.foldl (fun acc i => if p i then acc + f i else acc) init =
        init + ((L.filter p).map f).sum := by
  intro L
  induction L with
  | nil =>
      intro init
      rw [List.foldl_nil, List.filter_nil, List.map_nil, List.sum_nil, add_zero]
  | cons a L ih =>
      intro init
      rw [List.foldl_cons]
      by_cases h : p a
      · rw [if_pos h, ih, List.filter_cons_of_pos h, List.map_cons, List.sum_cons,
          add_assoc]
      · rw [if_neg h, ih, List.filter_cons_of_neg h]

theorem neuron_states_buffer_eq (net : hysteresis_network) (xi : ℚ) (index : ℕ) :
    (net.neuron_states xi index).1.outputs_buffer =
      if xi > 1 then net.outputs_buffer.set index 1
      else if xi < -1 then net.outputs_buffer.set index (-1)
      else net.outputs_buffer := by
  simp only [neuron_states]
  by_cases h1 : xi > 1
  · have h2 : ¬ xi < -1 := by linarith
    simp [h1, h2]
  · by_cases h2 : xi < -1 <;> simp [h1, h2]

end hysteresis_network

/-! ### Arithmetic facts about the time grids -/

theorem arangeQ_length (start stop step : ℚ) :
    (arangeQ start stop step).length = (⌈(stop - start) / step⌉).toNat := by
  rw [arangeQ, List.length_map, List.length_range]

/-- The macro-step grid `numpy.arange(step, time + step, step)` of
`simulate_static` has exactly `steps` entries when `step = time / steps`
with `steps` positive and `time` nonzero. -/
theorem arangeQ_macro_length (steps : ℕ) (time : ℚ) (hs : 0 < steps)
    (ht : time ≠ 0) :
    (arangeQ (time / (steps : ℚ)) (time + time / (steps : ℚ))
      (time / (steps : ℚ))).length = steps := by
  rw [arangeQ_length, add_sub_cancel_right]
  have hsq : ((steps : ℚ)) ≠ 0 := Nat.cast_ne_zero.mpr hs.ne'
  have : time / (time / (steps : ℚ)) = (steps : ℚ) := by
    rw [div_div_eq_mul_div, mul_comm, mul_div_assoc, div_self ht, mul_one]
  rw [this, Int.ceil_natCast, Int.toNat_natCast]

/-- The integration grid `numpy.arange(t - step, t, step / 10)` has
exactly 10 entries (for nonzero `step`), running from `t - step` to
`t - step / 10`: the macro-step end time `t` itself is excluded. -/
theorem integrationGrid_spec (t step : ℚ) (h : step ≠ 0) :
    (integrationGrid t step (step / 10)).length = 10 ∧
      (integrationGrid t step (step / 10)) =
        (List.range 10).map (fun (k : ℕ) => (t - step) + (k : ℚ) * (step / 10)) ∧
      (integrationGrid t step (step / 10)).head? = some (t - step) ∧
      (integrationGrid t step (step / 10)).getLast? = some (t - step / 10) := by
  have hceil : (⌈(t - (t - step)) / (step / 10)⌉).toNat = 10 := by
    rw [sub_sub_cancel]
    have : step / (step / 10) = (10 : ℚ) := by
      rw [div_div_eq_mul_div, mul_comm, mul_div_assoc, div_self h, mul_one]
    rw [this, show ((10 : ℚ)) = ((10 : ℕ) : ℚ) by norm_num, Int.ceil_natCast,
      Int.toNat_natCast]
  have hgrid : integrationGrid t step (step / 10) =
      (List.range 10).map (fun (k : ℕ) => (t - step) + (k : ℚ) * (step / 10)) := by
    rw [integrationGrid, arangeQ, hceil]
  refine ⟨?_, hgrid, ?_, ?_⟩
  · rw [hgrid, List.length_map, List.length_range]
  · rw [hgrid]
    rw [show (List.range 10) = 0 :: [1, 2, 3, 4, 5, 6, 7, 8, 9] from rfl]
    rw [List.map_cons, List.head?_cons]
    norm_num
  · rw [hgrid]
    rw [show (List.range 10) = [0, 1, 2, 3, 4, 5, 6, 7, 8, 9] from rfl]
    simp only [List.map_cons, List.map_nil, List.getLast?_cons, List.getLast?_nil]
    norm_num
    ring

/-! ### The claims -/

/-- C1: for every oscillator index and scalar state value `xi`, the
derivative function `neuron_states` returns `-xi + impact`, where
`impact` is the oscillator's own weight times its own latched output
plus the sum of `weights[index][j] * outputs[j]` over every `j` that the
topology connects to `index`; the impact is computed from the latched
`outputs` (never from `outputs_buffer`), and the call never mutates
`states` or `outputs`. -/
theorem claim_C1 (net : hysteresis_network) (xi : ℚ) (index : ℕ) :
    (net.neuron_states xi index).2 =
      -xi + (net.wget index index * net.outputs.getD index 0 +
        (((List.range net.num_osc).filter (fun j => net.has_connection j index)).map
          (fun j => net.wget index j * net.outputs.getD j 0)).sum) ∧
    (∀ buf : List ℚ,
      (({ net with outputs_buffer := buf } : hysteresis_network).neuron_states
        xi index).2 = (net.neuron_states xi index).2) ∧
    (net.neuron_states xi index).1.states = net.states ∧
    (net.neuron_states xi index).1.outputs = net.outputs := by
  refine ⟨?_, fun buf => hysteresis_network.neuron_states_snd_congr
    ⟨rfl, rfl, rfl, rfl, rfl⟩ xi index, rfl, rfl⟩
  simp only [hysteresis_network.neuron_states]
  rw [hysteresis_network.foldl_if_add (fun j => net.has_connection j index)
    (fun j => net.wget index j * net.outputs.getD j 0)]

/-- C2: each evaluation of the derivative function latches
`outputs_buffer[index]` to +1 when the passed state value exceeds 1, to
-1 when it is below -1, and leaves it unchanged otherwise; consequently
an oscillator whose integrator run only ever evaluates the derivative at
values strictly inside (-1, 1) during a macro step keeps its pre-step
output (given that, as at every macro-step boundary, its buffered output
agrees with its output). -/
theorem claim_C2 (net : hysteresis_network) (xi : ℚ) (index : ℕ)
    (integ : Integrator) (t step int_step : ℚ) (i : ℕ) (hi : i < net.num_osc)
    (hbo : net.outputs_buffer[i]? = net.outputs[i]?)
    (hdead : ∀ x ∈ (net.oscRun integ (integrationGrid t step int_step) i).evalPoints,
      -1 < x ∧ x < 1) :
    (net.neuron_states xi index).1.outputs_buffer =
      (if xi > 1 then net.outputs_buffer.set index 1
       else if xi < -1 then net.outputs_buffer.set index (-1)
       else net.outputs_buffer) ∧
    (net.update_states integ t step int_step).outputs[i]? = net.outputs[i]? := by
  refine ⟨hysteresis_network.neuron_states_buffer_eq net xi index, ?_⟩
  have h := (hysteresis_network.update_states_outputs_getElem? integ net t step
    int_step i).1
  rw [if_pos hi] at h
  rw [h, hbo]
  cases houts : net.outputs[i]? with
  | none => rfl
  | some v =>
      rw [Option.map_some, hysteresis_network.slotUpdate_of_dead_band hdead]

/-- C3: one macro step is order-independent: processing the
oscillators of `_calculate_states` in any permutation of the index
order `0, …, num_osc - 1` produces exactly the same pair of new states
and updated network (in particular the same published outputs). -/
theorem claim_C3 (integ : Integrator) (net : hysteresis_network)
    (t step int_step : ℚ) (order : List ℕ)
    (h : order.Perm (List.range net.num_osc)) :
    net.calculate_states_order integ t step int_step order =
      net.calculate_states integ t step int_step :=
  hysteresis_network.calculate_states_order_perm integ net t step int_step h

/-- C10: construction initializes `states` to `n` zeros, `outputs` and
`outputs_buffer` to `n` copies of -1 (buffer equal to outputs), and the
n-by-n weight matrix with the own weight on the diagonal and the
neighbour weight off the diagonal. -/
theorem claim_C10 (n : ℕ) (ow nw : ℚ) (conn : ℕ → ℕ → Bool) :
    (hysteresis_network.init n ow nw conn).num_osc = n ∧
    (hysteresis_network.init n ow nw conn).states = List.replicate n 0 ∧
    (hysteresis_network.init n ow nw conn).outputs = List.replicate n (-1) ∧
    (hysteresis_network.init n ow nw conn).outputs_buffer =
      (hysteresis_network.init n ow nw conn).outputs ∧
    (hysteresis_network.init n ow nw conn).weight.length = n ∧
    (∀ i, i < n →
      ((hysteresis_network.init n ow nw conn).weight.getD i []).length = n) ∧
    (∀ i j, i < n → j < n →
      (hysteresis_network.init n ow nw conn).wget i j =
        if i = j then ow else nw) := by
  have hrow : ∀ i, i < n → (hysteresis_network.init n ow nw conn).weight.getD i [] =
      (List.replicate n nw).set i ow := by
    intro i hi
    rw [show (hysteresis_network.init n ow nw conn).weight =
      (List.range n).map (fun index => (List.replicate n nw).set index ow) from rfl]
    rw [List.getD_eq_getElem?_getD, List.getElem?_map, List.getElem?_range hi]
    rfl
  refine ⟨rfl, rfl, rfl, rfl, ?_, fun i hi => ?_, fun i j hi hj => ?_⟩
  · rw [show (hysteresis_network.init n ow nw conn).weight =
      (List.range n).map (fun index => (List.replicate n nw).set index ow) from rfl]
    rw [List.length_map, List.length_range]
  · rw [hrow i hi, List.length_set, List.length_replicate]
  · rw [hysteresis_network.wget, hrow i hi, List.getD_eq_getElem?_getD,
      getElem?_set_map, List.getElem?_replicate, if_pos hj]
    by_cases hij : i = j
    · rw [if_pos hij, if_pos hij, Option.map_some, Option.getD_some]
    · rw [if_neg hij, if_neg hij, Option.getD_some]

/-- C4: the first-fit grouping on the two reference examples: states
`[1, 0.5, 0, -0.5, -1]` with tolerance 0.1 give five singleton groups,
and states `[1, 1.05, 1.02, 5, 5.01]` with tolerance 0.1 give
`[[0, 1, 2], [3, 4]]` (first-fit chaining). -/
theorem claim_C4 :
    demo5a.allocate_sync_ensembles 0.1 = [[0], [1], [2], [3], [4]] ∧
    demo5b.allocate_sync_ensembles 0.1 = [[0, 1, 2], [3, 4]] := by
  constructor
  · norm_num [demo5a, hysteresis_network.allocate_sync_ensembles,
      hysteresis_network.init, hysteresis_network.set_states,
      hysteresis_network.tryInsert, hysteresis_network.cluster_matches,
      List.range']
  · norm_num [demo5b, hysteresis_network.allocate_sync_ensembles,
      hysteresis_network.init, hysteresis_network.set_states,
      hysteresis_network.tryInsert, hysteresis_network.cluster_matches,
      List.range']

/-- C5: for every network with a positive oscillator count and a states
vector of matching length, the groups returned by
`allocate_sync_ensembles` partition `{0, …, num_osc - 1}`: their
concatenation is a permutation of `range num_osc` (so every index
appears in exactly one group) and the groups are pairwise disjoint. -/
theorem claim_C5 (net : hysteresis_network) (tolerance : ℚ)
    (h : 0 < net.num_osc) (_hlen : net.states.length = net.num_osc) :
    (net.allocate_sync_ensembles tolerance).flatten.Perm
      (List.range net.num_osc) ∧
    List.Pairwise List.Disjoint (net.allocate_sync_ensembles tolerance) := by
  have hperm := hysteresis_network.allocate_sync_ensembles_flatten_perm net tolerance h
  exact ⟨hperm, (List.nodup_flatten.mp (hperm.symm.nodup (List.nodup_range _))).2⟩

/-- C6: with the supported solver, a positive step count and a positive
horizon, `simulate` with the recording flag on returns `steps + 1`
snapshots starting with `(0, initial states)`, and its last snapshot is
exactly the single pair that `simulate` with the flag off returns (with
the same final network). -/
theorem claim_C6 (integ : Integrator) (net : hysteresis_network) (steps : ℕ)
    (time : ℚ) (hs : 0 < steps) (ht : 0 < time) :
    ∃ (l : List (ℚ × List ℚ)) (net' : hysteresis_network) (p : ℚ × List ℚ),
      net.simulate integ steps time solve_type.RK4 true =
        Except.ok (Sum.inl l, net') ∧
      l.length = steps + 1 ∧
      l.head? = some (0, net.states) ∧
      l.getLast? = some p ∧
      net.simulate integ steps time solve_type.RK4 false =
        Except.ok (Sum.inr (some p), net') := by
  have hlen : (hysteresis_network.simulate_steps integ (time / (steps : ℚ))
      (time / (steps : ℚ) / 10)
      (arangeQ (time / (steps : ℚ)) (time + time / (steps : ℚ))
        (time / (steps : ℚ))) net).2.length = steps := by
    rw [hysteresis_network.simulate_steps_snd_length,
      arangeQ_macro_length steps time hs ht.ne']
  obtain ⟨q, hq⟩ : ∃ q, (hysteresis_network.simulate_steps integ (time / (steps : ℚ))
      (time / (steps : ℚ) / 10)
      (arangeQ (time / (steps : ℚ)) (time + time / (steps : ℚ))
        (time / (steps : ℚ))) net).2.getLast? = some q := by
    cases hlast : (hysteresis_network.simulate_steps integ (time / (steps : ℚ))
        (time / (steps : ℚ) / 10)
        (arangeQ (time / (steps : ℚ)) (time + time / (steps : ℚ))
          (time / (steps : ℚ))) net).2.getLast? with
    | some q => exact ⟨q, rfl⟩
    | none =>
        rw [List.getLast?_eq_none_iff.mp hlast, List.length_nil] at hlen
        exact absurd hlen.symm hs.ne'
  refine ⟨_, _, q, rfl, ?_, rfl, ?_, ?_⟩
  · rw [List.length_cons, hlen]
  · rw [List.getLast?_cons, hq, Option.getD_some]
  · have hfalse : net.simulate integ steps time solve_type.RK4 false =
        Except.ok (Sum.inr ((hysteresis_network.simulate_steps integ
          (time / (steps : ℚ)) (time / (steps : ℚ) / 10)
          (arangeQ (time / (steps : ℚ)) (time + time / (steps : ℚ))
            (time / (steps : ℚ))) net).2.getLast?), (hysteresis_network.simulate_steps
          integ (time / (steps : ℚ)) (time / (steps : ℚ) / 10)
          (arangeQ (time / (steps : ℚ)) (time + time / (steps : ℚ))
            (time / (steps : ℚ))) net).1) := rfl
    rw [hfalse, hq]

/-- C7 counterexample: the claim says the last time point passed to the
integrator for a macro step ending at `t` is `t` itself.  For the macro
step with `t = 10`, `Δt = 10` (so sub-step `10 / 10`), the grid
`numpy.arange(t - Δt, t, Δt/10)` ends at 9, not at 10: `arange` excludes
its stop value. -/
theorem claim_C7_counterexample :
    ¬ (integrationGrid 10 10 (10 / 10)).getLast? = some 10 := by
  intro h
  have hspec := (integrationGrid_spec 10 10 (by norm_num)).2.2.2
  rw [hspec] at h
  have := Option.some.inj h
  norm_num at this

/-- C7 amended: for every macro step ending at time `t` with duration
`Δt = step ≠ 0`, the integrator is invoked once per oscillator with the
oscillator's current state as initial value over the half-open interval
`[t - Δt, t)` sampled at sub-step `Δt/10` — ten points from `t - Δt` to
`t - Δt/10`, the stop value `t` itself being excluded — and the
oscillator's new state is the trajectory value at that final time
point. -/
theorem claim_C7_amended (integ : Integrator) (net : hysteresis_network)
    (t step : ℚ) (hstep : step ≠ 0) (index : ℕ) (hi : index < net.num_osc) :
    (integrationGrid t step (step / 10)).length = 10 ∧
    (integrationGrid t step (step / 10)).head? = some (t - step) ∧
    (integrationGrid t step (step / 10)).getLast? = some (t - step / 10) ∧
    (net.update_states integ t step (step / 10)).states[index]? =
      some ((net.oscRun integ (integrationGrid t step (step / 10))
        index).finalValue) := by
  obtain ⟨hlen, _hgrid, hhead, hlast⟩ := integrationGrid_spec t step hstep
  refine ⟨hlen, hhead, hlast, ?_⟩
  rw [hysteresis_network.update_states_states_getElem? integ net t step (step / 10)
    index, if_pos hi]

/-- C8: requesting either rejected solver (the low-accuracy FAST method
or the adaptive RKF45 method) makes `simulate`/`simulate_static` fail
with a configuration error, and the error is decided before any
simulation work: the result does not depend on the network, the
integrator, or any other simulation input, so the network is exactly as
it was before the call. -/
theorem claim_C8 (integ integ' : Integrator) (net net' : hysteresis_network)
    (steps steps' : ℕ) (time time' : ℚ) (collect collect' : Bool) :
    (∃ msg, net.simulate integ steps time solve_type.FAST collect =
      Except.error msg) ∧
    (∃ msg, net.simulate integ steps time solve_type.RKF45 collect =
      Except.error msg) ∧
    net.simulate_static integ steps time solve_type.FAST collect =
      net'.simulate_static integ' steps' time' solve_type.FAST collect' ∧
    net.simulate_static integ steps time solve_type.RKF45 collect =
      net'.simulate_static integ' steps' time' solve_type.RKF45 collect' :=
  ⟨⟨_, rfl⟩, ⟨_, rfl⟩, rfl, rfl⟩

/-- C9: membership of the outputs in {-1, +1} is an invariant: the
external outputs assignment resets the buffer to the assigned values,
and if both the outputs and the buffered outputs hold only -1 and +1
entries before a simulation, then after one macro step — and after the
whole simulation loop — every entry of `outputs` and `outputs_buffer` is
still exactly -1 or +1. -/
theorem claim_C9 (integ : Integrator) (net : hysteresis_network)
    (values : List ℚ) (t step int_step : ℚ) (ts : List ℚ)
    (ho : hysteresis_network.pm_one net.outputs)
    (hb : hysteresis_network.pm_one net.outputs_buffer) :
    (net.set_outputs values).outputs_buffer = (net.set_outputs values).outputs ∧
    (hysteresis_network.pm_one (net.update_states integ t step int_step).outputs ∧
      hysteresis_network.pm_one
        (net.update_states integ t step int_step).outputs_buffer) ∧
    (hysteresis_network.pm_one
        (hysteresis_network.simulate_steps integ step int_step ts net).1.outputs ∧
      hysteresis_network.pm_one
        (hysteresis_network.simulate_steps integ step int_step ts
          net).1.outputs_buffer) :=
  ⟨rfl, hysteresis_network.pm_one_update_states hb integ t step int_step,
    hysteresis_network.pm_one_simulate_steps integ step int_step ts net ho hb⟩

/-! ### Witnesses -/

/-- Witness for C2 on a concrete two-oscillator network: the one-point
integrator run at the initial state 0 stays in the dead band, so the
output of oscillator 0 is unchanged by the macro step. -/
theorem claim_C2_witness :
    (demo2.outputs_buffer[0]? = demo2.outputs[0]? ∧
      (∀ x ∈ (demo2.oscRun eulerOnce (integrationGrid 1 1 (1 / 10)) 0).evalPoints,
        -1 < x ∧ x < 1)) ∧
    ((demo2.neuron_states 2 0).1.outputs_buffer =
      (if (2 : ℚ) > 1 then demo2.outputs_buffer.set 0 1
       else if (2 : ℚ) < -1 then demo2.outputs_buffer.set 0 (-1)
       else demo2.outputs_buffer) ∧
     (demo2.update_states eulerOnce 1 1 (1 / 10)).outputs[0]? =
       demo2.outputs[0]?) := by
  have hi : 0 < demo2.num_osc := by decide
  have hbo : demo2.outputs_buffer[0]? = demo2.outputs[0]? := rfl
  have hdead : ∀ x ∈ (demo2.oscRun eulerOnce (integrationGrid 1 1 (1 / 10))
      0).evalPoints, -1 < x ∧ x < 1 := by
    intro x hx
    rw [show (demo2.oscRun eulerOnce (integrationGrid 1 1 (1 / 10)) 0).evalPoints =
      [(0 : ℚ)] from rfl, List.mem_singleton] at hx
    subst hx
    norm_num
  exact ⟨⟨hbo, hdead⟩, claim_C2 demo2 2 0 eulerOnce 1 1 (1 / 10) 0 hi hbo hdead⟩

/-- Witness for C3: processing the two oscillators in the reversed
order `[1, 0]` gives the same macro-step result as the canonical order. -/
theorem claim_C3_witness :
    ([1, 0] : List ℕ).Perm (List.range demo2.num_osc) ∧
    demo2.calculate_states_order eulerOnce 1 1 (1 / 10) [1, 0] =
      demo2.calculate_states eulerOnce 1 1 (1 / 10) := by
  have hperm : ([1, 0] : List ℕ).Perm (List.range demo2.num_osc) := by
    rw [show List.range demo2.num_osc = [0, 1] from rfl]
    exact List.Perm.swap 0 1 []
  exact ⟨hperm, claim_C3 eulerOnce demo2 1 1 (1 / 10) [1, 0] hperm⟩

/-- Witness for C5 on the concrete five-oscillator network. -/
theorem claim_C5_witness :
    (0 < demo5a.num_osc ∧ demo5a.states.length = demo5a.num_osc) ∧
    ((demo5a.allocate_sync_ensembles (1 / 10)).flatten.Perm
        (List.range demo5a.num_osc) ∧
      List.Pairwise List.Disjoint (demo5a.allocate_sync_ensembles (1 / 10))) :=
  ⟨⟨by decide, by decide⟩, claim_C5 demo5a (1 / 10) (by decide) (by decide)⟩

/-- Witness for C6 at one macro step over horizon 1. -/
theorem claim_C6_witness :
    (0 < 1 ∧ (0 : ℚ) < 1) ∧
    (∃ (l : List (ℚ × List ℚ)) (net' : hysteresis_network) (p : ℚ × List ℚ),
      demo2.simulate eulerOnce 1 1 solve_type.RK4 true =
        Except.ok (Sum.inl l, net') ∧
      l.length = 1 + 1 ∧
      l.head? = some (0, demo2.states) ∧
      l.getLast? = some p ∧
      demo2.simulate eulerOnce 1 1 solve_type.RK4 false =
        Except.ok (Sum.inr (some p), net')) :=
  ⟨⟨by decide, by norm_num⟩,
    claim_C6 eulerOnce demo2 1 1 (by decide) (by norm_num)⟩

/-- Witness for C7 (amended) at `t = 1`, `Δt = 1`, oscillator 0. -/
theorem claim_C7_witness :
    ((1 : ℚ) ≠ 0 ∧ 0 < demo2.num_osc) ∧
    ((integrationGrid 1 1 (1 / 10)).length = 10 ∧
      (integrationGrid 1 1 (1 / 10)).head? = some (1 - 1) ∧
      (integrationGrid 1 1 (1 / 10)).getLast? = some (1 - 1 / 10) ∧
      (demo2.update_states eulerOnce 1 1 (1 / 10)).states[0]? =
        some ((demo2.oscRun eulerOnce (integrationGrid 1 1 (1 / 10))
          0).finalValue)) :=
  ⟨⟨by norm_num, by decide⟩,
    claim_C7_amended eulerOnce demo2 1 1 (by norm_num) 0 (by decide)⟩

/-- Witness for C9 on the concrete two-oscillator network, whose
outputs and buffered outputs start as two copies of -1. -/
theorem claim_C9_witness :
    ((demo2.set_outputs [1, -1]).outputs_buffer =
      (demo2.set_outputs [1, -1]).outputs) ∧
    (hysteresis_network.pm_one (demo2.update_states eulerOnce 1 1 (1 / 10)).outputs ∧
      hysteresis_network.pm_one
        (demo2.update_states eulerOnce 1 1 (1 / 10)).outputs_buffer) ∧
    (hysteresis_network.pm_one
        (hysteresis_network.simulate_steps eulerOnce 1 (1 / 10) [1] demo2).1.outputs ∧
      hysteresis_network.pm_one
        (hysteresis_network.simulate_steps eulerOnce 1 (1 / 10) [1]
          demo2).1.outputs_buffer) := by
  have hpm : hysteresis_network.pm_one (List.replicate 2 (-1 : ℚ)) :=
    fun v hv => Or.inl (List.eq_of_mem_replicate hv)
  exact claim_C9 eulerOnce demo2 [1, -1] 1 1 (1 / 10) [1] hpm hpm

/-- Witness for C10 on a concrete two-oscillator construction. -/
theorem claim_C10_witness :
    (hysteresis_network.init 2 (-4) (-1) all_to_all).wget 0 0 = -4 ∧
    (hysteresis_network.init 2 (-4) (-1) all_to_all).wget 0 1 = -1 ∧
    (hysteresis_network.init 2 (-4) (-1) all_to_all).states =
      List.replicate 2 0 := by
  refine ⟨?_, ?_, (claim_C10 2 (-4) (-1) all_to_all).2.1⟩
  · have := (claim_C10 2 (-4) (-1) all_to_all).2.2.2.2.2.2 0 0
      (by decide) (by decide)
    rwa [if_pos rfl] at this
  · have := (claim_C10 2 (-4) (-1) all_to_all).2.2.2.2.2.2 0 1
      (by decide) (by decide)
    rwa [if_neg (by decide)] at this
